import Mathlib

/-
Verification of the CHIP-8 interpreter core (rust-chip-8).

The machine state and the cycle function below are a shallow embedding of
src/chip8/mod.rs and src/chip8/emulation.rs.  Machine integers (u8, u16)
are modelled as Nat with explicit reductions mod 2^8 / 2^16 at the places
where the Rust code casts or where wrapping arithmetic occurs; Rust release
semantics (two-sided wrapping, no overflow checks) are used for the
arithmetic, and every direct array index of the Rust code is guarded here,
a failed bound turning into the out-of-bounds abort that the corresponding
Rust indexing expression produces.  An aborting execution is an
Except.error carrying the abort kind together with the machine state at the
moment of the abort (the mutations already performed remain visible there,
exactly as in the Rust process at the point of the panic).
-/

/-- Point update of a function representing one of the fixed machine arrays. -/
def upd {α : Type} (f : Nat → α) (k : Nat) (a : α) : Nat → α :=
  fun j => if j = k then a else f j

/-- The CHIP-8 machine state, after struct Chip8 (and Timers) of src/chip8/mod.rs.
memory has 4096 byte cells, v has 16 byte registers, display has 64 x 32 = 2048
boolean cells in row-major order, stack has 16 slots of 16-bit addresses. -/
structure Chip8 where
  rom_loaded : Bool
  opcode : Nat
  memory : Nat → Nat
  v : Nat → Nat
  i : Nat
  pc : Nat
  display : Nat → Bool
  draw : Bool
  stack : Nat → Nat
  sp : Nat
  delay_timer : Nat
  sound_timer : Nat

/-- Abort kinds of the reference implementation.  indexOutOfBounds is the abort
produced by an out-of-range direct array index; the two illegal-opcode kinds are
the aborts raised by Chip8::panic_illegal_opcode and
Chip8::panic_illegal_opcode_category, carrying the raw opcode and, for the
second, also the matched category value (first nibble shifted into place). -/
inductive Err where
  | indexOutOfBounds : Err
  | illegalOpcode : Nat → Err
  | illegalOpcodeCategory : Nat → Nat → Err
deriving DecidableEq

/-- One inner iteration block of the draw loop of opcode 0xDXYN
(src/chip8/emulation.rs, the loop over the 8 bits of one sprite row).
Arguments mirror the Rust local state: data is the sprite row byte, xc the
clipped x origin, yrow the absolute display row, bit the current bit index,
fuel the remaining iterations (8 - bit at the call site), disp the display
and vf the current value of register VF. -/
def drawBits (data xc yrow : Nat) : Nat → Nat → (Nat → Bool) → Nat → ((Nat → Bool) × Nat)
  | _, 0, disp, vf => (disp, vf)
  | bit, fuel + 1, disp, vf =>
    if 64 ≤ xc + bit then (disp, vf)
    else
      let currentBit := Nat.land (128 >>> bit) data
      let pos := xc + bit + yrow * 64
      if currentBit ≠ 0 then
        if disp pos then
          drawBits data xc yrow (bit + 1) fuel (upd disp pos false) 1
        else
          drawBits data xc yrow (bit + 1) fuel (upd disp pos true) vf
      else
        drawBits data xc yrow (bit + 1) fuel disp vf

/-- The outer draw loop of opcode 0xDXYN over sprite rows.  A result
Except.error d is the state of (display, VF) at the moment the sprite fetch
memory[i + row] indexes past the 4096-byte memory and the program aborts. -/
def drawRows (mem : Nat → Nat) (i xc yc : Nat) :
    Nat → Nat → (Nat → Bool) → Nat → Except ((Nat → Bool) × Nat) ((Nat → Bool) × Nat)
  | _, 0, disp, vf => Except.ok (disp, vf)
  | row, fuel + 1, disp, vf =>
    if 32 ≤ yc + row then Except.ok (disp, vf)
    else if i + row < 4096 then
      let pr := drawBits (mem (i + row)) xc (yc + row) 0 8 disp vf
      drawRows mem i xc yc (row + 1) fuel pr.1 pr.2
    else
      Except.error (disp, vf)

/-- Clear screen (opcode 0x00E0): turn off every display cell, raise the draw
flag, advance pc. -/
def opCls (s : Chip8) : Except (Err × Chip8) Chip8 :=
  Except.ok { s with
    display := fun p => if p < 2048 then false else s.display p,
    draw := true, pc := s.pc + 2 }

/-- Subroutine return (opcode 0x00EE): sp -= 1 (u8 wrapping), then read
stack[sp] (the Rust index aborts when sp is out of range, after the decrement
already happened), then pc := popped address. -/
def opRet (s : Chip8) : Except (Err × Chip8) Chip8 :=
  if (s.sp + 255) % 256 < 16 then
    Except.ok { s with sp := (s.sp + 255) % 256, pc := s.stack ((s.sp + 255) % 256) }
  else
    Except.error (Err.indexOutOfBounds, { s with sp := (s.sp + 255) % 256 })

/-- The abort of Chip8::panic_illegal_opcode_category: the raw opcode together
with the category value (first nibble shifted into place). -/
def errCat (cat : Nat) (s : Chip8) : Except (Err × Chip8) Chip8 :=
  Except.error (Err.illegalOpcodeCategory s.opcode (cat * 4096), s)

/-- Jump (opcode 0x1NNN). -/
def opJump (nnn : Nat) (s : Chip8) : Except (Err × Chip8) Chip8 :=
  Except.ok { s with pc := nnn }

/-- Subroutine call (opcode 0x2NNN): stack[sp] := pc (the Rust index aborts
when sp is out of range, before any mutation), sp += 1, pc := nnn. -/
def opCall (nnn : Nat) (s : Chip8) : Except (Err × Chip8) Chip8 :=
  if s.sp < 16 then
    Except.ok { s with stack := upd s.stack s.sp s.pc, sp := (s.sp + 1) % 256, pc := nnn }
  else
    Except.error (Err.indexOutOfBounds, s)

/-- Skip if V[x] = nn (opcode 0x3XNN). -/
def opSkipEq (x nn : Nat) (s : Chip8) : Except (Err × Chip8) Chip8 :=
  Except.ok { s with pc := s.pc + (if s.v x = nn then 4 else 2) }

/-- Skip if V[x] differs from nn (opcode 0x4XNN). -/
def opSkipNe (x nn : Nat) (s : Chip8) : Except (Err × Chip8) Chip8 :=
  Except.ok { s with pc := s.pc + (if s.v x ≠ nn then 4 else 2) }

/-- Skip if V[x] = V[y] (opcode 0x5XY0). -/
def opSkipEqReg (x y : Nat) (s : Chip8) : Except (Err × Chip8) Chip8 :=
  Except.ok { s with pc := s.pc + (if s.v x = s.v y then 4 else 2) }

/-- Skip if V[x] differs from V[y] (opcode 0x9XY0). -/
def opSkipNeReg (x y : Nat) (s : Chip8) : Except (Err × Chip8) Chip8 :=
  Except.ok { s with pc := s.pc + (if s.v x ≠ s.v y then 4 else 2) }

/-- Set V[x] := nn (opcode 0x6XNN). -/
def opSetReg (x nn : Nat) (s : Chip8) : Except (Err × Chip8) Chip8 :=
  Except.ok { s with v := upd s.v x nn, pc := s.pc + 2 }

/-- V[x] += nn with 8-bit wraparound, VF untouched (opcode 0x7XNN). -/
def opAddImm (x nn : Nat) (s : Chip8) : Except (Err × Chip8) Chip8 :=
  Except.ok { s with v := upd s.v x ((s.v x % 256 + nn) % 256), pc := s.pc + 2 }

/-- The arithmetic and logic family (opcodes 0x8XYN), dispatched on the last
nibble exactly as the inner Rust match. -/
def op8 (cat x y n : Nat) (s : Chip8) : Except (Err × Chip8) Chip8 :=
  if n = 0 then
    Except.ok { s with v := upd s.v x (s.v y), pc := s.pc + 2 }
  else if n = 1 then
    Except.ok { s with v := upd s.v x (Nat.lor (s.v x) (s.v y)), pc := s.pc + 2 }
  else if n = 2 then
    Except.ok { s with v := upd s.v x (Nat.land (s.v x) (s.v y)), pc := s.pc + 2 }
  else if n = 3 then
    Except.ok { s with v := upd s.v x (Nat.xor (s.v x) (s.v y)), pc := s.pc + 2 }
  else if n = 4 then
    let res := s.v x % 256 + s.v y % 256
    let vf : Nat := if 255 < res then 1 else 0
    Except.ok { s with v := upd (upd s.v 15 vf) x (res % 256), pc := s.pc + 2 }
  else if n = 5 then
    let a := s.v x
    let b := s.v y
    let vf : Nat := if b < a then 1 else 0
    Except.ok { s with v := upd (upd s.v 15 vf) x ((a + 256 - b) % 256), pc := s.pc + 2 }
  else if n = 6 then
    let v1 := upd s.v x (s.v y)
    let v2 := upd v1 15 (Nat.land (v1 x) 0x0F)
    Except.ok { s with v := upd v2 x (v2 x / 2), pc := s.pc + 2 }
  else if n = 7 then
    let a := s.v y
    let b := s.v x
    let vf : Nat := if b < a then 1 else 0
    Except.ok { s with v := upd (upd s.v 15 vf) x ((a + 256 - b) % 256), pc := s.pc + 2 }
  else if n = 14 then
    let v1 := upd s.v x (s.v y)
    let v2 := upd v1 15 (Nat.land (v1 x) 0x0F)
    Except.ok { s with v := upd v2 x (v2 x * 2 % 256), pc := s.pc + 2 }
  else
    errCat cat s

/-- Set the index register (opcode 0xANNN). -/
def opSetIndex (nnn : Nat) (s : Chip8) : Except (Err × Chip8) Chip8 :=
  Except.ok { s with i := nnn, pc := s.pc + 2 }

/-- Jump with offset (opcode 0xBNNN): pc := nnn + V0. -/
def opJumpV0 (nnn : Nat) (s : Chip8) : Except (Err × Chip8) Chip8 :=
  Except.ok { s with pc := nnn + s.v 0 % 256 }

/-- Random (opcode 0xCXNN): V[x] := random byte AND nn. -/
def opRandom (rnd x nn : Nat) (s : Chip8) : Except (Err × Chip8) Chip8 :=
  Except.ok { s with v := upd s.v x (Nat.land (rnd % 256) nn), pc := s.pc + 2 }

/-- Draw (opcode 0xDXYN): origin (V[x] mod 64, V[y] mod 32), VF cleared before
the row loop, then the row loop, then the draw flag and the pc advance. -/
def opDraw (x y n : Nat) (s : Chip8) : Except (Err × Chip8) Chip8 :=
  match drawRows s.memory s.i (s.v x % 64) (s.v y % 32) 0 n s.display 0 with
  | Except.ok pr =>
    Except.ok { s with v := upd s.v 15 pr.2, display := pr.1, draw := true, pc := s.pc + 2 }
  | Except.error pr =>
    Except.error (Err.indexOutOfBounds, { s with v := upd s.v 15 pr.2, display := pr.1 })

/-- The execute step of Chip8::emulate_cycle: the big match on the decoded
fields, one sub-definition per Rust match arm.  cat is the first nibble (the
Rust variable op is cat * 4096), x, y, n, nn, nnn the remaining decoded fields,
rnd the byte drawn from the injected random source for opcode 0xCXNN.
s.opcode already holds the fetched opcode. -/
def execOp (rnd cat x y n nn nnn : Nat) (s : Chip8) : Except (Err × Chip8) Chip8 :=
  if cat = 0 then
    if nnn = 0x0E0 then opCls s
    else if nnn = 0x0EE then opRet s
    else errCat cat s
  else if cat = 1 then opJump nnn s
  else if cat = 2 then opCall nnn s
  else if cat = 3 then opSkipEq x nn s
  else if cat = 4 then opSkipNe x nn s
  else if cat = 5 then
    if n = 0 then opSkipEqReg x y s else errCat cat s
  else if cat = 6 then opSetReg x nn s
  else if cat = 7 then opAddImm x nn s
  else if cat = 8 then op8 cat x y n s
  else if cat = 9 then
    if n = 0 then opSkipNeReg x y s else errCat cat s
  else if cat = 10 then opSetIndex nnn s
  else if cat = 11 then opJumpV0 nnn s
  else if cat = 12 then opRandom rnd x nn s
  else if cat = 13 then opDraw x y n s
  else Except.error (Err.illegalOpcode s.opcode, s)

/-- The fetched 16-bit opcode: the byte at pc shifted left by 8, or-ed with the
byte at pc + 1 (big endian), as in Chip8::emulate_cycle. -/
def fetchOp (s : Chip8) : Nat :=
  s.memory s.pc % 256 * 256 + s.memory (s.pc + 1) % 256

/-- Decode the positional fields of the fetched opcode op (first nibble, x, y,
n, nn, nnn, each a bit-field of the 16-bit word, written here as the equal
div/mod expressions), store op in the opcode register and execute. -/
def decodeExec (rnd op : Nat) (s : Chip8) : Except (Err × Chip8) Chip8 :=
  execOp rnd (op / 4096) (op / 256 % 16) (op / 16 % 16) (op % 16) (op % 256) (op % 4096)
    { s with opcode := op }

/-- One cycle of Chip8::emulate_cycle: fetch the two opcode bytes (each direct
index aborts out of bounds at 4096), store the combined opcode, decode the
positional fields and execute.  rnd is the byte the injected random source
would produce for opcode 0xCXNN during this cycle. -/
def emulateCycle (rnd : Nat) (s : Chip8) : Except (Err × Chip8) Chip8 :=
  if s.pc < 4096 then
    if s.pc + 1 < 4096 then
      decodeExec rnd (fetchOp s) s
    else
      Except.error (Err.indexOutOfBounds, s)
  else
    Except.error (Err.indexOutOfBounds, s)

/-- The ROM copy loop of Chip8::load_rom: memory[idx] := byte for idx = 0x200
onward; the first write at idx = 4096 is the out-of-bounds abort of the Rust
indexing, and the error value is the memory at that moment (the bytes already
copied remain). -/
def loadRomAux (mem : Nat → Nat) (idx : Nat) : List Nat → Except (Nat → Nat) (Nat → Nat)
  | [] => Except.ok mem
  | b :: rest =>
    if idx < 4096 then loadRomAux (upd mem idx b) (idx + 1) rest
    else Except.error mem

/-- Chip8::load_rom after the file has been read into a byte sequence: copy the
bytes into memory starting at 0x200, then set the rom_loaded flag.  There is no
capacity check in the source; an over-long sequence aborts out of bounds. -/
def loadRom (s : Chip8) (bytes : List Nat) : Except (Err × Chip8) Chip8 :=
  match loadRomAux s.memory 0x200 bytes with
  | Except.ok mem2 => Except.ok { s with memory := mem2, rom_loaded := true }
  | Except.error mem2 => Except.error (Err.indexOutOfBounds, { s with memory := mem2 })

/-- A machine as Chip8::new builds it (fontset omitted: no claim touches the
font region), used as the base of the concrete witness states. -/
def baseState : Chip8 :=
  { rom_loaded := true, opcode := 0, memory := fun _ => 0, v := fun _ => 0, i := 0,
    pc := 0x200, display := fun _ => false, draw := false, stack := fun _ => 0, sp := 0,
    delay_timer := 0, sound_timer := 0 }

/-- Convenience projection for the abort kind of a run. -/
def runErrKind : Except (Err × Chip8) Chip8 → Option Err
  | Except.error e => some e.1
  | Except.ok _ => none

/-- State for claim C1: a ROM with a subroutine call 0x2300 at 0x200 and, at the
call target 0x300, the return opcode 0x00EE. -/
def c1s : Chip8 :=
  { baseState with memory := fun a =>
      if a = 0x200 then 0x23 else if a = 0x201 then 0x00 else
      if a = 0x300 then 0x00 else if a = 0x301 then 0xEE else 0 }

/-- Result of running two cycles (the call, then the return) from c1s. -/
def c1r : Chip8 :=
  match emulateCycle 0 c1s with
  | Except.ok t =>
    (match emulateCycle 0 t with
     | Except.ok u => u
     | Except.error _ => t)
  | Except.error _ => c1s

/-- State for claim C2, shift right: opcode 0x8016 with V1 = 0x02. -/
def c2s6 : Chip8 :=
  { baseState with
    memory := fun a => if a = 0x200 then 0x80 else if a = 0x201 then 0x16 else 0,
    v := fun j => if j = 1 then 0x02 else 0 }

/-- Result of one cycle from c2s6. -/
def c2r6 : Chip8 :=
  match emulateCycle 0 c2s6 with
  | Except.ok t => t
  | Except.error _ => c2s6

/-- State for claim C2, shift left: opcode 0x801E with V1 = 0x80. -/
def c2sE : Chip8 :=
  { baseState with
    memory := fun a => if a = 0x200 then 0x80 else if a = 0x201 then 0x1E else 0,
    v := fun j => if j = 1 then 0x80 else 0 }

/-- Result of one cycle from c2sE. -/
def c2rE : Chip8 :=
  match emulateCycle 0 c2sE with
  | Except.ok t => t
  | Except.error _ => c2sE

/-- Claim C3 exactly as stated: for all registers x, y with x not equal to y and
all byte values a, b, a cycle executing opcode 0x8XY5 on V[x] = a, V[y] = b
yields VF = 1 iff a > b and V[x] = (a - b) mod 256. -/
def claimC3 : Prop :=
  ∀ (s : Chip8) (rnd x y a b : Nat) (s2 : Chip8),
    x < 16 → y < 16 → x ≠ y → a < 256 → b < 256 →
    s.pc + 1 < 4096 →
    s.memory s.pc % 256 = 128 + x →
    s.memory (s.pc + 1) % 256 = y * 16 + 5 →
    s.v x = a → s.v y = b →
    emulateCycle rnd s = Except.ok s2 →
    ((s2.v 15 = 1 ↔ b < a) ∧ s2.v x = (a + 256 - b) % 256)

/-- Counterexample state for claim C3: opcode 0x8F05 (x = 0xF, y = 0) with
VF = 5 and V0 = 2; the difference 3 is written into V[x] = VF after the borrow
flag, overwriting it. -/
def c3cs : Chip8 :=
  { baseState with
    memory := fun a => if a = 0x200 then 0x8F else if a = 0x201 then 0x05 else 0,
    v := fun j => if j = 15 then 5 else if j = 0 then 2 else 0 }

/-- Result of one cycle from c3cs. -/
def c3cr : Chip8 :=
  match emulateCycle 0 c3cs with
  | Except.ok t => t
  | Except.error _ => c3cs

/-- Witness state for the amended claim C3: opcode 0x8015 (x = 0, y = 1) with
V0 = 7 and V1 = 9 (a borrowing subtraction). -/
def c3ws : Chip8 :=
  { baseState with
    memory := fun a => if a = 0x200 then 0x80 else if a = 0x201 then 0x15 else 0,
    v := fun j => if j = 0 then 7 else if j = 1 then 9 else 0 }

/-- Result of one cycle from c3ws. -/
def c3wr : Chip8 :=
  match emulateCycle 0 c3ws with
  | Except.ok t => t
  | Except.error _ => c3ws

/-- State for claim C4, overflow side: call opcode 0x2300 with sp already 16. -/
def c4sCall : Chip8 :=
  { baseState with memory := fun a => if a = 0x200 then 0x23 else 0, sp := 16 }

/-- State for claim C4, underflow side: return opcode 0x00EE with sp = 0. -/
def c4sRet : Chip8 :=
  { baseState with memory := fun a => if a = 0x201 then 0xEE else 0, sp := 0 }

/-- Claim C5 exactly as stated: for all registers x, y and byte values a, b, a
cycle executing opcode 0x8XY4 on V[x] = a, V[y] = b yields
V[x] = (a + b) mod 256 and VF = 1 iff a + b > 255. -/
def claimC5 : Prop :=
  ∀ (s : Chip8) (rnd x y a b : Nat) (s2 : Chip8),
    x < 16 → y < 16 → a < 256 → b < 256 →
    s.pc + 1 < 4096 →
    s.memory s.pc % 256 = 128 + x →
    s.memory (s.pc + 1) % 256 = y * 16 + 4 →
    s.v x = a → s.v y = b →
    emulateCycle rnd s = Except.ok s2 →
    (s2.v x = (a + b) % 256 ∧ (s2.v 15 = 1 ↔ 255 < a + b))

/-- Counterexample state for claim C5: opcode 0x8F04 (x = 0xF, y = 0) with
VF = 200 and V0 = 100; the sum 44 is written into V[x] = VF after the carry
flag, overwriting it. -/
def c5cs : Chip8 :=
  { baseState with
    memory := fun a => if a = 0x200 then 0x8F else if a = 0x201 then 0x04 else 0,
    v := fun j => if j = 15 then 200 else if j = 0 then 100 else 0 }

/-- Result of one cycle from c5cs. -/
def c5cr : Chip8 :=
  match emulateCycle 0 c5cs with
  | Except.ok t => t
  | Except.error _ => c5cs

/-- Witness state for the amended claim C5: opcode 0x8014 (x = 0, y = 1) with
V0 = 250 and V1 = 10 (a carrying addition). -/
def c5ws : Chip8 :=
  { baseState with
    memory := fun a => if a = 0x200 then 0x80 else if a = 0x201 then 0x14 else 0,
    v := fun j => if j = 0 then 250 else if j = 1 then 10 else 0 }

/-- Result of one cycle from c5ws. -/
def c5wr : Chip8 :=
  match emulateCycle 0 c5ws with
  | Except.ok t => t
  | Except.error _ => c5ws

/-- Claim C6 exactly as stated, over the decoded draw step: executing the draw
instruction with fields x, y, n twice in succession (no other mutation between
the two executions) restores the display exactly and sets VF on the second
draw exactly when the first draw turned some pixel on.  The sprite bytes are
required to lie inside the 4096-byte memory. -/
def claimC6 : Prop :=
  ∀ (s : Chip8) (rnd rnd2 x y n nn nnn nn2 nnn2 : Nat) (s1 s2 : Chip8),
    x < 16 → y < 16 → n < 16 →
    (∀ r, r < n → s.i + r < 4096) →
    execOp rnd 13 x y n nn nnn s = Except.ok s1 →
    execOp rnd2 13 x y n nn2 nnn2 s1 = Except.ok s2 →
    ((∀ p, s2.display p = s.display p) ∧
     (s2.v 15 = 1 ↔ ∃ p, s.display p = false ∧ s1.display p = true))

/-- Counterexample state for claim C6: draw with x = 0xF (sprite byte 0x80 at
i = 0, height 1), VF = 5 before the first draw.  The first draw resets VF, so
the second draw reads a different x origin and does not erase the first. -/
def c6cs : Chip8 :=
  { baseState with
    memory := fun a => if a = 0 then 0x80 else 0,
    v := fun j => if j = 15 then 5 else 0 }

/-- Result of the first draw step from c6cs (fields x = 15, y = 0, n = 1). -/
def c6cr1 : Chip8 :=
  match execOp 0 13 15 0 1 0 0 c6cs with
  | Except.ok t => t
  | Except.error _ => c6cs

/-- Result of the second draw step from c6cr1. -/
def c6cr2 : Chip8 :=
  match execOp 0 13 15 0 1 0 0 c6cr1 with
  | Except.ok t => t
  | Except.error _ => c6cr1

/-- Witness state for the amended claim C6: sprite byte 0xF0 at i = 0, drawn at
origin (0, 0) with fields x = 0, y = 1, n = 1. -/
def c6ws : Chip8 :=
  { baseState with memory := fun a => if a = 0 then 0xF0 else 0 }

/-- Result of the first draw step from c6ws. -/
def c6wr1 : Chip8 :=
  match execOp 0 13 0 1 1 0 0 c6ws with
  | Except.ok t => t
  | Except.error _ => c6ws

/-- Result of the second draw step from c6wr1. -/
def c6wr2 : Chip8 :=
  match execOp 0 13 0 1 1 0 0 c6wr1 with
  | Except.ok t => t
  | Except.error _ => c6wr1

/-- The (category, n, nnn) combinations that reach one of the two
illegal-opcode aborts of Chip8::emulate_cycle. -/
def illegalCombo (cat n nnn : Nat) : Bool :=
  (decide (cat = 0) && decide (nnn ≠ 0x0E0) && decide (nnn ≠ 0x0EE))
  || (decide (cat = 5) && decide (n ≠ 0))
  || (decide (cat = 8) && decide (¬ (n ≤ 7 ∨ n = 14)))
  || (decide (cat = 9) && decide (n ≠ 0))
  || decide (cat = 14) || decide (cat = 15)

/-- Witness state for claim C7: the malformed opcode 0xFFFF at pc. -/
def c7ws : Chip8 :=
  { baseState with
    memory := fun a => if a = 0x200 then 0xFF else if a = 0x201 then 0xFF else 0 }

/-- Witness state for claim C9: program counter at the last memory cell. -/
def c9ws : Chip8 := { baseState with pc := 4095 }

/-- Witness state for claim C10: the clear-screen opcode 0x00E0 at pc. -/
def c10ws : Chip8 :=
  { baseState with memory := fun a => if a = 0x201 then 0xE0 else 0 }

/-- Result of one cycle from c10ws. -/
def c10wr : Chip8 :=
  match emulateCycle 0 c10ws with
  | Except.ok t => t
  | Except.error _ => c10ws

/-- Positions toggled by the bit loop of one sprite row: mirrors drawBits,
recording whether position p is toggled instead of performing the toggle. -/
def hitB (data xc yrow : Nat) : Nat → Nat → Nat → Bool
  | _, 0, _ => false
  | bit, fuel + 1, p =>
    if 64 ≤ xc + bit then false
    else
      (decide (Nat.land (128 >>> bit) data ≠ 0)
          && decide (p = xc + bit + yrow * 64))
        || hitB data xc yrow (bit + 1) fuel p

/-- Collision test of the bit loop of one sprite row against a fixed display:
mirrors drawBits, recording whether some set sprite bit lands on a lit cell. -/
def colB (data xc yrow : Nat) : Nat → Nat → (Nat → Bool) → Bool
  | _, 0, _ => false
  | bit, fuel + 1, disp =>
    if 64 ≤ xc + bit then false
    else
      (decide (Nat.land (128 >>> bit) data ≠ 0)
          && disp (xc + bit + yrow * 64))
        || colB data xc yrow (bit + 1) fuel disp

/-- Positions toggled by the whole sprite: mirrors drawRows. -/
def hitR (mem : Nat → Nat) (i xc yc : Nat) : Nat → Nat → Nat → Bool
  | _, 0, _ => false
  | row, fuel + 1, p =>
    if 32 ≤ yc + row then false
    else if i + row < 4096 then
      hitB (mem (i + row)) xc (yc + row) 0 8 p || hitR mem i xc yc (row + 1) fuel p
    else false

/-- Collision test of the whole sprite against a fixed display: mirrors
drawRows. -/
def colR (mem : Nat → Nat) (i xc yc : Nat) : Nat → Nat → (Nat → Bool) → Bool
  | _, 0, _ => false
  | row, fuel + 1, disp =>
    if 32 ≤ yc + row then false
    else if i + row < 4096 then
      colB (mem (i + row)) xc (yc + row) 0 8 disp || colR mem i xc yc (row + 1) fuel disp
    else false

/-- C9: with the program counter at 4095 or beyond, the fetch of the two opcode
bytes indexes past the 4096-byte memory and the cycle aborts out of bounds with
the machine state untouched; the address is never wrapped and no byte outside
memory is read. -/
theorem c9_fetch_oob (s : Chip8) (rnd : Nat) (h : 4095 ≤ s.pc) :
    emulateCycle rnd s = Except.error (Err.indexOutOfBounds, s) := by
  unfold emulateCycle
  by_cases h1 : s.pc < 4096
  · have h2 : ¬ (s.pc + 1 < 4096) := by omega
    rw [if_pos h1, if_neg h2]
  · rw [if_neg h1]

/-- Witness for c9_fetch_oob at pc = 4095. -/
theorem c9_fetch_oob_witness :
    4095 ≤ c9ws.pc ∧ emulateCycle 0 c9ws = Except.error (Err.indexOutOfBounds, c9ws) :=
  ⟨by decide, c9_fetch_oob c9ws 0 (by decide)⟩

/-- C1: running the call at 0x200 and then the matching return leaves the
program counter back at 0x200, the address of the call instruction itself, not
at 0x202: the call pushes the un-incremented pc and the return pops it without
adding 2, so the claimed post-return address of call + 2 is not what the code
computes. -/
theorem c1_call_return_divergence :
    (emulateCycle 0 c1s).bind (emulateCycle 0) = Except.ok c1r
      ∧ c1r.pc = 0x200 ∧ c1r.pc ≠ 0x202 :=
  ⟨rfl, rfl, by decide⟩

/-- C2: opcode 0x8016 with V1 = 2 leaves VF = 2 (the low nibble of the copied
value), not the claimed shifted-out bit 0; opcode 0x801E with V1 = 0x80 leaves
VF = 0 (again the low nibble), not the claimed bit 7 of the copied value. -/
theorem c2_shift_vf_divergence :
    (emulateCycle 0 c2s6 = Except.ok c2r6 ∧ c2r6.v 15 = 2 ∧ c2r6.v 0 = 1)
      ∧ (emulateCycle 0 c2sE = Except.ok c2rE ∧ c2rE.v 15 = 0 ∧ c2rE.v 0 = 0) :=
  ⟨⟨rfl, rfl, rfl⟩, ⟨rfl, rfl, rfl⟩⟩

/-- C4: the call with sp already 16 aborts with the raw out-of-bounds index
abort of stack[16] (state otherwise untouched), and the return with sp = 0
first wraps sp to 255 and then aborts out of bounds on stack[255]; neither path
produces a named stack overflow or underflow error, which do not exist in the
code. -/
theorem c4_stack_abort_eval :
    emulateCycle 0 c4sCall
        = Except.error (Err.indexOutOfBounds, { c4sCall with opcode := 0x2300 })
      ∧ emulateCycle 0 c4sRet
        = Except.error (Err.indexOutOfBounds, { c4sRet with opcode := 0x00EE, sp := 255 }) :=
  ⟨rfl, rfl⟩

set_option maxRecDepth 20000 in
/-- C8: loading a byte sequence one byte longer than the 3584-byte program
space aborts with the raw out-of-bounds index abort of memory[4096]; the code
has no capacity check and no CapacityError kind. -/
theorem c8_loadrom_overflow_eval :
    runErrKind (loadRom baseState (List.replicate 3585 7)) = some Err.indexOutOfBounds :=
  rfl

/-- C3 counterexample: the claim as stated is false at x = 0xF (opcode 0x8F05
with VF = 5, V0 = 2): the subtraction result 3 is written into V[x] = VF after
the borrow flag, so VF ends as 3, not 1. -/
theorem c3_counterexample : ¬ claimC3 := by
  intro h
  have h2 := h c3cs 0 15 0 5 2 c3cr (by decide) (by decide) (by decide) (by decide)
    (by decide) (by decide) (by decide) (by decide) (by decide) (by decide) rfl
  exact absurd (h2.1.mpr (by norm_num)) (by decide)

/-- C3 amended: for registers x, y with x distinct from y and from 0xF and byte
values a, b, opcode 0x8XY5 on V[x] = a, V[y] = b yields VF = 1 iff a > b and
V[x] = (a - b) mod 256 (wrapping on borrow, written on Nat as
(a + 256 - b) mod 256); the restriction x distinct from 0xF is forced because
the difference is stored into V[x] after the flag write and overwrites it. -/
theorem c3_sub_amended (s : Chip8) (rnd x y a b : Nat) (s2 : Chip8)
    (hx : x < 16) (hy : y < 16) (hxy : x ≠ y) (hxF : x ≠ 15)
    (ha : a < 256) (hb : b < 256)
    (hpc : s.pc + 1 < 4096)
    (hm1 : s.memory s.pc % 256 = 128 + x)
    (hm2 : s.memory (s.pc + 1) % 256 = y * 16 + 5)
    (hvx : s.v x = a) (hvy : s.v y = b)
    (hrun : emulateCycle rnd s = Except.ok s2) :
    (s2.v 15 = 1 ↔ b < a) ∧ s2.v x = (a + 256 - b) % 256 := by
  have hpc0 : s.pc < 4096 := by omega
  have hop : fetchOp s = (128 + x) * 256 + (y * 16 + 5) := by
    unfold fetchOp
    rw [hm1, hm2]
  unfold emulateCycle at hrun
  rw [if_pos hpc0, if_pos hpc, hop] at hrun
  unfold decodeExec at hrun
  have e1 : ((128 + x) * 256 + (y * 16 + 5)) / 4096 = 8 := by omega
  have e2 : ((128 + x) * 256 + (y * 16 + 5)) / 256 % 16 = x := by omega
  have e4 : ((128 + x) * 256 + (y * 16 + 5)) % 16 = 5 := by omega
  rw [e1, e2, e4] at hrun
  unfold execOp op8 at hrun
  norm_num at hrun
  have e3 : ((128 + x) * 256 + (y * 16 + 5)) / 16 % 16 = y := by omega
  rw [e3] at hrun
  subst hrun
  have h15x : (15 : Nat) ≠ x := fun hq => hxF hq.symm
  constructor
  · show upd (upd s.v 15 _) x _ 15 = 1 ↔ b < a
    rw [upd, upd]
    simp only [if_neg h15x, if_pos rfl]
    rw [hvx, hvy]
    by_cases hab : b < a
    · simp [hab]
    · simp [hab]
  · show upd (upd s.v 15 _) x _ x = (a + 256 - b) % 256
    simp [upd, hvx, hvy]

/-- Witness for c3_sub_amended: opcode 0x8015 on V0 = 7, V1 = 9 borrows, VF
ends 0 and V0 ends 254. -/
theorem c3_sub_amended_witness :
    (c3ws.v 0 = 7 ∧ c3ws.v 1 = 9 ∧ emulateCycle 0 c3ws = Except.ok c3wr)
      ∧ ((c3wr.v 15 = 1 ↔ 9 < 7) ∧ c3wr.v 0 = (7 + 256 - 9) % 256) :=
  ⟨⟨rfl, rfl, rfl⟩,
    c3_sub_amended c3ws 0 0 1 7 9 c3wr (by decide) (by decide) (by decide) (by decide)
      (by decide) (by decide) (by decide) (by decide) (by decide) rfl rfl rfl⟩

/-- C5 counterexample: the claim as stated is false at x = 0xF (opcode 0x8F04
with VF = 200, V0 = 100): the sum 300 mod 256 = 44 is written into V[x] = VF
after the carry flag, so VF ends as 44, not 1. -/
theorem c5_counterexample : ¬ claimC5 := by
  intro h
  have h2 := h c5cs 0 15 0 200 100 c5cr (by decide) (by decide) (by decide) (by decide)
    (by decide) (by decide) (by decide) (by decide) (by decide) rfl
  exact absurd (h2.2.mpr (by norm_num)) (by decide)

/-- C5 amended: for registers x, y with x distinct from 0xF and byte values
a, b, opcode 0x8XY4 on V[x] = a, V[y] = b yields V[x] = (a + b) mod 256 and
VF = 1 iff a + b > 255; the restriction x distinct from 0xF is forced because
the sum is stored into V[x] after the flag write and overwrites it. -/
theorem c5_add_amended (s : Chip8) (rnd x y a b : Nat) (s2 : Chip8)
    (hx : x < 16) (hy : y < 16) (hxF : x ≠ 15)
    (ha : a < 256) (hb : b < 256)
    (hpc : s.pc + 1 < 4096)
    (hm1 : s.memory s.pc % 256 = 128 + x)
    (hm2 : s.memory (s.pc + 1) % 256 = y * 16 + 4)
    (hvx : s.v x = a) (hvy : s.v y = b)
    (hrun : emulateCycle rnd s = Except.ok s2) :
    s2.v x = (a + b) % 256 ∧ (s2.v 15 = 1 ↔ 255 < a + b) := by
  have hpc0 : s.pc < 4096 := by omega
  have hop : fetchOp s = (128 + x) * 256 + (y * 16 + 4) := by
    unfold fetchOp
    rw [hm1, hm2]
  unfold emulateCycle at hrun
  rw [if_pos hpc0, if_pos hpc, hop] at hrun
  unfold decodeExec at hrun
  have e1 : ((128 + x) * 256 + (y * 16 + 4)) / 4096 = 8 := by omega
  have e2 : ((128 + x) * 256 + (y * 16 + 4)) / 256 % 16 = x := by omega
  have e4 : ((128 + x) * 256 + (y * 16 + 4)) % 16 = 4 := by omega
  rw [e1, e2, e4] at hrun
  unfold execOp op8 at hrun
  norm_num at hrun
  have e3 : ((128 + x) * 256 + (y * 16 + 4)) / 16 % 16 = y := by omega
  rw [e3] at hrun
  subst hrun
  have h15x : (15 : Nat) ≠ x := fun hq => hxF hq.symm
  constructor
  · show upd (upd s.v 15 _) x _ x = (a + b) % 256
    simp [upd, hvx, hvy, Nat.mod_eq_of_lt ha, Nat.mod_eq_of_lt hb]
  · show upd (upd s.v 15 _) x _ 15 = 1 ↔ 255 < a + b
    rw [upd, upd]
    simp only [if_neg h15x, if_pos rfl]
    rw [hvx, hvy, Nat.mod_eq_of_lt ha, Nat.mod_eq_of_lt hb]
    by_cases hab : 255 < a + b
    · simp [hab]
    · simp [hab]

/-- Witness for c5_add_amended: opcode 0x8014 on V0 = 250, V1 = 10 carries, VF
ends 1 and V0 ends 4. -/
theorem c5_add_amended_witness :
    (c5ws.v 0 = 250 ∧ c5ws.v 1 = 10 ∧ emulateCycle 0 c5ws = Except.ok c5wr)
      ∧ (c5wr.v 0 = (250 + 10) % 256 ∧ (c5wr.v 15 = 1 ↔ 255 < 250 + 10)) :=
  ⟨⟨rfl, rfl, rfl⟩,
    c5_add_amended c5ws 0 0 1 250 10 c5wr (by decide) (by decide) (by decide) (by decide)
      (by decide) (by decide) (by decide) (by decide) rfl rfl rfl⟩

/-- Helper: a successful execute step never writes the memory array or either
timer, whatever the decoded fields are. -/
theorem opCls_frame {s s2 : Chip8} (h : opCls s = Except.ok s2) :
    s2.memory = s.memory ∧ s2.delay_timer = s.delay_timer
      ∧ s2.sound_timer = s.sound_timer := by
  unfold opCls at h
  injection h with h
  subst h
  exact ⟨rfl, rfl, rfl⟩

theorem opRet_frame {s s2 : Chip8} (h : opRet s = Except.ok s2) :
    s2.memory = s.memory ∧ s2.delay_timer = s.delay_timer
      ∧ s2.sound_timer = s.sound_timer := by
  unfold opRet at h
  split at h
  · injection h with h
    subst h
    exact ⟨rfl, rfl, rfl⟩
  · exact Except.noConfusion h

theorem errCat_not_ok (cat : Nat) {s s2 : Chip8}
    (h : errCat cat s = Except.ok s2) : False := by
  unfold errCat at h
  exact Except.noConfusion h

theorem opJump_frame {nnn : Nat} {s s2 : Chip8} (h : opJump nnn s = Except.ok s2) :
    s2.memory = s.memory ∧ s2.delay_timer = s.delay_timer
      ∧ s2.sound_timer = s.sound_timer := by
  unfold opJump at h
  injection h with h
  subst h
  exact ⟨rfl, rfl, rfl⟩

theorem opCall_frame {nnn : Nat} {s s2 : Chip8} (h : opCall nnn s = Except.ok s2) :
    s2.memory = s.memory ∧ s2.delay_timer = s.delay_timer
      ∧ s2.sound_timer = s.sound_timer := by
  unfold opCall at h
  split at h
  · injection h with h
    subst h
    exact ⟨rfl, rfl, rfl⟩
  · exact Except.noConfusion h

theorem opSkipEq_frame {x nn : Nat} {s s2 : Chip8} (h : opSkipEq x nn s = Except.ok s2) :
    s2.memory = s.memory ∧ s2.delay_timer = s.delay_timer
      ∧ s2.sound_timer = s.sound_timer := by
  unfold opSkipEq at h
  injection h with h
  subst h
  exact ⟨rfl, rfl, rfl⟩

theorem opSkipNe_frame {x nn : Nat} {s s2 : Chip8} (h : opSkipNe x nn s = Except.ok s2) :
    s2.memory = s.memory ∧ s2.delay_timer = s.delay_timer
      ∧ s2.sound_timer = s.sound_timer := by
  unfold opSkipNe at h
  injection h with h
  subst h
  exact ⟨rfl, rfl, rfl⟩

theorem opSkipEqReg_frame {x y : Nat} {s s2 : Chip8}
    (h : opSkipEqReg x y s = Except.ok s2) :
    s2.memory = s.memory ∧ s2.delay_timer = s.delay_timer
      ∧ s2.sound_timer = s.sound_timer := by
  unfold opSkipEqReg at h
  injection h with h
  subst h
  exact ⟨rfl, rfl, rfl⟩

theorem opSkipNeReg_frame {x y : Nat} {s s2 : Chip8}
    (h : opSkipNeReg x y s = Except.ok s2) :
    s2.memory = s.memory ∧ s2.delay_timer = s.delay_timer
      ∧ s2.sound_timer = s.sound_timer := by
  unfold opSkipNeReg at h
  injection h with h
  subst h
  exact ⟨rfl, rfl, rfl⟩

theorem opSetReg_frame {x nn : Nat} {s s2 : Chip8} (h : opSetReg x nn s = Except.ok s2) :
    s2.memory = s.memory ∧ s2.delay_timer = s.delay_timer
      ∧ s2.sound_timer = s.sound_timer := by
  unfold opSetReg at h
  injection h with h
  subst h
  exact ⟨rfl, rfl, rfl⟩

theorem opAddImm_frame {x nn : Nat} {s s2 : Chip8} (h : opAddImm x nn s = Except.ok s2) :
    s2.memory = s.memory ∧ s2.delay_timer = s.delay_timer
      ∧ s2.sound_timer = s.sound_timer := by
  unfold opAddImm at h
  injection h with h
  subst h
  exact ⟨rfl, rfl, rfl⟩

theorem op8_frame {cat x y n : Nat} {s s2 : Chip8} (h : op8 cat x y n s = Except.ok s2) :
    s2.memory = s.memory ∧ s2.delay_timer = s.delay_timer
      ∧ s2.sound_timer = s.sound_timer := by
  unfold op8 at h
  by_cases h0 : n = 0
  · rw [if_pos h0] at h
    injection h with h
    subst h
    exact ⟨rfl, rfl, rfl⟩
  rw [if_neg h0] at h
  by_cases h1 : n = 1
  · rw [if_pos h1] at h
    injection h with h
    subst h
    exact ⟨rfl, rfl, rfl⟩
  rw [if_neg h1] at h
  by_cases h2 : n = 2
  · rw [if_pos h2] at h
    injection h with h
    subst h
    exact ⟨rfl, rfl, rfl⟩
  rw [if_neg h2] at h
  by_cases h3 : n = 3
  · rw [if_pos h3] at h
    injection h with h
    subst h
    exact ⟨rfl, rfl, rfl⟩
  rw [if_neg h3] at h
  by_cases h4 : n = 4
  · rw [if_pos h4] at h
    injection h with h
    subst h
    exact ⟨rfl, rfl, rfl⟩
  rw [if_neg h4] at h
  by_cases h5 : n = 5
  · rw [if_pos h5] at h
    injection h with h
    subst h
    exact ⟨rfl, rfl, rfl⟩
  rw [if_neg h5] at h
  by_cases h6 : n = 6
  · rw [if_pos h6] at h
    injection h with h
    subst h
    exact ⟨rfl, rfl, rfl⟩
  rw [if_neg h6] at h
  by_cases h7 : n = 7
  · rw [if_pos h7] at h
    injection h with h
    subst h
    exact ⟨rfl, rfl, rfl⟩
  rw [if_neg h7] at h
  by_cases h14 : n = 14
  · rw [if_pos h14] at h
    injection h with h
    subst h
    exact ⟨rfl, rfl, rfl⟩
  rw [if_neg h14] at h
  exact (errCat_not_ok _ h).elim

theorem opSetIndex_frame {nnn : Nat} {s s2 : Chip8}
    (h : opSetIndex nnn s = Except.ok s2) :
    s2.memory = s.memory ∧ s2.delay_timer = s.delay_timer
      ∧ s2.sound_timer = s.sound_timer := by
  unfold opSetIndex at h
  injection h with h
  subst h
  exact ⟨rfl, rfl, rfl⟩

theorem opJumpV0_frame {nnn : Nat} {s s2 : Chip8} (h : opJumpV0 nnn s = Except.ok s2) :
    s2.memory = s.memory ∧ s2.delay_timer = s.delay_timer
      ∧ s2.sound_timer = s.sound_timer := by
  unfold opJumpV0 at h
  injection h with h
  subst h
  exact ⟨rfl, rfl, rfl⟩

theorem opRandom_frame {rnd x nn : Nat} {s s2 : Chip8}
    (h : opRandom rnd x nn s = Except.ok s2) :
    s2.memory = s.memory ∧ s2.delay_timer = s.delay_timer
      ∧ s2.sound_timer = s.sound_timer := by
  unfold opRandom at h
  injection h with h
  subst h
  exact ⟨rfl, rfl, rfl⟩

theorem opDraw_frame {x y n : Nat} {s s2 : Chip8} (h : opDraw x y n s = Except.ok s2) :
    s2.memory = s.memory ∧ s2.delay_timer = s.delay_timer
      ∧ s2.sound_timer = s.sound_timer := by
  unfold opDraw at h
  split at h
  · injection h with h
    subst h
    exact ⟨rfl, rfl, rfl⟩
  · exact Except.noConfusion h

theorem execOp_ok_frame (rnd cat x y n nn nnn : Nat) (s s2 : Chip8)
    (h : execOp rnd cat x y n nn nnn s = Except.ok s2) :
    s2.memory = s.memory ∧ s2.delay_timer = s.delay_timer
      ∧ s2.sound_timer = s.sound_timer := by
  unfold execOp at h
  by_cases hc : cat < 14
  · interval_cases cat
    · norm_num at h
      split at h
      · exact opCls_frame h
      split at h
      · exact opRet_frame h
      exact (errCat_not_ok _ h).elim
    · norm_num at h
      exact opJump_frame h
    · norm_num at h
      exact opCall_frame h
    · norm_num at h
      exact opSkipEq_frame h
    · norm_num at h
      exact opSkipNe_frame h
    · norm_num at h
      split at h
      · exact opSkipEqReg_frame h
      exact (errCat_not_ok _ h).elim
    · norm_num at h
      exact opSetReg_frame h
    · norm_num at h
      exact opAddImm_frame h
    · norm_num at h
      exact op8_frame h
    · norm_num at h
      split at h
      · exact opSkipNeReg_frame h
      exact (errCat_not_ok _ h).elim
    · norm_num at h
      exact opSetIndex_frame h
    · norm_num at h
      exact opJumpV0_frame h
    · norm_num at h
      exact opRandom_frame h
    · norm_num at h
      exact opDraw_frame h
  · rw [if_neg (show ¬ cat = 0 by omega), if_neg (show ¬ cat = 1 by omega),
      if_neg (show ¬ cat = 2 by omega), if_neg (show ¬ cat = 3 by omega),
      if_neg (show ¬ cat = 4 by omega), if_neg (show ¬ cat = 5 by omega),
      if_neg (show ¬ cat = 6 by omega), if_neg (show ¬ cat = 7 by omega),
      if_neg (show ¬ cat = 8 by omega), if_neg (show ¬ cat = 9 by omega),
      if_neg (show ¬ cat = 10 by omega), if_neg (show ¬ cat = 11 by omega),
      if_neg (show ¬ cat = 12 by omega), if_neg (show ¬ cat = 13 by omega)] at h
    exact Except.noConfusion h

/-- C10: every cycle that executes successfully (any opcode of the implemented
subset) leaves the whole memory array, the delay timer and the sound timer
unchanged; no path of the cycle decrements a timer. -/
theorem c10_memory_timers_frame (rnd : Nat) (s s2 : Chip8)
    (h : emulateCycle rnd s = Except.ok s2) :
    (∀ a, s2.memory a = s.memory a)
      ∧ s2.delay_timer = s.delay_timer ∧ s2.sound_timer = s.sound_timer := by
  unfold emulateCycle at h
  by_cases h1 : s.pc < 4096
  · rw [if_pos h1] at h
    by_cases h2 : s.pc + 1 < 4096
    · rw [if_pos h2] at h
      unfold decodeExec at h
      have h3 := execOp_ok_frame _ _ _ _ _ _ _ _ _ h
      exact ⟨fun a => congrFun h3.1 a, h3.2.1, h3.2.2⟩
    · rw [if_neg h2] at h
      exact Except.noConfusion h
  · rw [if_neg h1] at h
    exact Except.noConfusion h

/-- Witness for c10_memory_timers_frame: one clear-screen cycle from c10ws. -/
theorem c10_memory_timers_frame_witness :
    emulateCycle 0 c10ws = Except.ok c10wr
      ∧ ((∀ a, c10wr.memory a = c10ws.memory a)
         ∧ c10wr.delay_timer = c10ws.delay_timer
         ∧ c10wr.sound_timer = c10ws.sound_timer) :=
  ⟨rfl, c10_memory_timers_frame 0 c10ws c10wr rfl⟩

/-- C7: whenever the fetch succeeds and the fetched opcode decodes to a
(category, n, nnn) combination outside the implemented table, the cycle aborts
with the illegal-opcode abort carrying the raw opcode - and the category value
when a category arm matched but no sub-case did - and the state at the abort is
the input state with only the opcode register updated by the fetch: registers,
memory, display, stack, stack pointer, program counter and timers are
untouched. -/
theorem c7_illegal_opcode (s : Chip8) (rnd : Nat)
    (hpc : s.pc + 1 < 4096)
    (hic : illegalCombo (fetchOp s / 4096) (fetchOp s % 16) (fetchOp s % 4096) = true) :
    emulateCycle rnd s = Except.error
      ((if fetchOp s / 4096 = 14 ∨ fetchOp s / 4096 = 15
        then Err.illegalOpcode (fetchOp s)
        else Err.illegalOpcodeCategory (fetchOp s) (fetchOp s / 4096 * 4096)),
       { s with opcode := fetchOp s }) := by
  have hpc0 : s.pc < 4096 := by omega
  unfold emulateCycle
  rw [if_pos hpc0, if_pos hpc]
  unfold decodeExec
  unfold illegalCombo at hic
  simp only [Bool.or_eq_true, Bool.and_eq_true, decide_eq_true_eq] at hic
  rcases hic with ((((⟨⟨hc, hn1⟩, hn2⟩ | ⟨hc, hn⟩) | ⟨hc, hn⟩) | ⟨hc, hn⟩) | hc) | hc
  · rw [hc]
    unfold execOp
    norm_num
    rw [if_neg hn1, if_neg hn2]
    unfold errCat
    norm_num
  · rw [hc]
    unfold execOp
    norm_num
    rw [if_neg hn]
    unfold errCat
    norm_num
  · have g0 : ¬ (fetchOp s % 16 = 0) := by omega
    have g1 : ¬ (fetchOp s % 16 = 1) := by omega
    have g2 : ¬ (fetchOp s % 16 = 2) := by omega
    have g3 : ¬ (fetchOp s % 16 = 3) := by omega
    have g4 : ¬ (fetchOp s % 16 = 4) := by omega
    have g5 : ¬ (fetchOp s % 16 = 5) := by omega
    have g6 : ¬ (fetchOp s % 16 = 6) := by omega
    have g7 : ¬ (fetchOp s % 16 = 7) := by omega
    have g14 : ¬ (fetchOp s % 16 = 14) := by omega
    rw [hc]
    unfold execOp op8
    norm_num
    rw [if_neg g0, if_neg g1, if_neg g2, if_neg g3, if_neg g4, if_neg g5, if_neg g6,
      if_neg g7, if_neg g14]
    unfold errCat
    norm_num
  · rw [hc]
    unfold execOp
    norm_num
    rw [if_neg hn]
    unfold errCat
    norm_num
  · rw [hc]
    unfold execOp
    norm_num
  · rw [hc]
    unfold execOp
    norm_num

/-- Witness for c7_illegal_opcode at the malformed opcode 0xFFFF. -/
theorem c7_illegal_opcode_witness :
    (c7ws.pc + 1 < 4096
      ∧ illegalCombo (fetchOp c7ws / 4096) (fetchOp c7ws % 16) (fetchOp c7ws % 4096) = true)
      ∧ emulateCycle 0 c7ws = Except.error
          ((if fetchOp c7ws / 4096 = 14 ∨ fetchOp c7ws / 4096 = 15
            then Err.illegalOpcode (fetchOp c7ws)
            else Err.illegalOpcodeCategory (fetchOp c7ws) (fetchOp c7ws / 4096 * 4096)),
           { c7ws with opcode := fetchOp c7ws }) :=
  ⟨⟨by decide, by decide⟩, c7_illegal_opcode c7ws 0 (by decide) (by decide)⟩

/-- Every position recorded by hitB lies at some bit k at or after the current
bit, inside the right edge, in the row band of yrow. -/
theorem hitB_pos (data xc yrow : Nat) :
    ∀ (fuel bit p : Nat), hitB data xc yrow bit fuel p = true →
      ∃ k, bit ≤ k ∧ xc + k < 64 ∧ p = xc + k + yrow * 64 := by
  intro fuel
  induction fuel with
  | zero =>
    intro bit p h
    simp [hitB] at h
  | succ fuel ih =>
    intro bit p h
    by_cases hb : 64 ≤ xc + bit
    · simp [hitB, hb] at h
    · simp only [hitB, if_neg hb, Bool.or_eq_true, Bool.and_eq_true,
        decide_eq_true_eq] at h
      rcases h with ⟨hc, hp⟩ | h
      · exact ⟨bit, le_refl bit, by omega, hp⟩
      · obtain ⟨k, hk1, hk2, hk3⟩ := ih (bit + 1) p h
        exact ⟨k, by omega, hk2, hk3⟩

/-- The bit loop never toggles the same position twice: the positions of the
later bits differ from the current one. -/
theorem hitB_not_self (data xc yrow : Nat) (fuel bit : Nat) :
    hitB data xc yrow (bit + 1) fuel (xc + bit + yrow * 64) = false := by
  cases hh : hitB data xc yrow (bit + 1) fuel (xc + bit + yrow * 64) with
  | false => rfl
  | true =>
    obtain ⟨k, hk1, hk2, hk3⟩ := hitB_pos data xc yrow fuel (bit + 1) _ hh
    omega

/-- A position toggled by one row lies in that row band of the display. -/
theorem hitB_band (data xc yrow : Nat) (fuel bit p : Nat)
    (h : hitB data xc yrow bit fuel p = true) : p / 64 = yrow := by
  obtain ⟨k, hk1, hk2, hk3⟩ := hitB_pos data xc yrow fuel bit p h
  omega

/-- The display after the bit loop of one sprite row is the pointwise XOR of
the toggle set with the incoming display. -/
theorem drawBits_fst (data xc yrow : Nat) :
    ∀ (fuel bit : Nat) (disp : Nat → Bool) (vf p : Nat),
      (drawBits data xc yrow bit fuel disp vf).1 p
        = Bool.xor (hitB data xc yrow bit fuel p) (disp p) := by
  intro fuel
  induction fuel with
  | zero =>
    intro bit disp vf p
    simp [drawBits, hitB]
  | succ fuel ih =>
    intro bit disp vf p
    by_cases hb : 64 ≤ xc + bit
    · simp [drawBits, hitB, hb]
    · by_cases hcb : Nat.land (128 >>> bit) data = 0
      · have e1 : drawBits data xc yrow bit (fuel + 1) disp vf
            = drawBits data xc yrow (bit + 1) fuel disp vf := by
          simp [drawBits, hb, hcb]
        have e2 : hitB data xc yrow bit (fuel + 1) p
            = hitB data xc yrow (bit + 1) fuel p := by
          simp [hitB, hb, hcb]
        rw [e1, e2, ih]
      · by_cases hd : disp (xc + bit + yrow * 64) = true
        · have e1 : drawBits data xc yrow bit (fuel + 1) disp vf
              = drawBits data xc yrow (bit + 1) fuel
                  (upd disp (xc + bit + yrow * 64) false) 1 := by
            simp [drawBits, hb, hcb, hd]
          rw [e1, ih]
          by_cases hp : p = xc + bit + yrow * 64
          · subst hp
            rw [hitB_not_self]
            have e3 : hitB data xc yrow bit (fuel + 1) (xc + bit + yrow * 64) = true := by
              simp [hitB, hb, hcb]
            rw [e3]
            simp [upd, hd]
          · have e4 : upd disp (xc + bit + yrow * 64) false p = disp p := by
              simp [upd, hp]
            have e5 : hitB data xc yrow bit (fuel + 1) p
                = hitB data xc yrow (bit + 1) fuel p := by
              simp [hitB, hb, hp]
            rw [e4, e5]
        · have hd2 : disp (xc + bit + yrow * 64) = false := by
            revert hd
            cases disp (xc + bit + yrow * 64) <;> simp
          have e1 : drawBits data xc yrow bit (fuel + 1) disp vf
              = drawBits data xc yrow (bit + 1) fuel
                  (upd disp (xc + bit + yrow * 64) true) vf := by
            simp [drawBits, hb, hcb, hd2]
          rw [e1, ih]
          by_cases hp : p = xc + bit + yrow * 64
          · subst hp
            rw [hitB_not_self]
            have e3 : hitB data xc yrow bit (fuel + 1) (xc + bit + yrow * 64) = true := by
              simp [hitB, hb, hcb]
            rw [e3]
            simp [upd, hd2]
          · have e4 : upd disp (xc + bit + yrow * 64) true p = disp p := by
              simp [upd, hp]
            have e5 : hitB data xc yrow bit (fuel + 1) p
                = hitB data xc yrow (bit + 1) fuel p := by
              simp [hitB, hb, hp]
            rw [e4, e5]

/-- The collision test of one row only reads the display at the positions of
the remaining bits of that row. -/
theorem colB_congr (data xc yrow : Nat) :
    ∀ (fuel bit : Nat) (disp disp2 : Nat → Bool),
      (∀ k, bit ≤ k → xc + k < 64 →
        disp (xc + k + yrow * 64) = disp2 (xc + k + yrow * 64)) →
      colB data xc yrow bit fuel disp = colB data xc yrow bit fuel disp2 := by
  intro fuel
  induction fuel with
  | zero =>
    intro bit disp disp2 hagree
    simp [colB]
  | succ fuel ih =>
    intro bit disp disp2 hagree
    by_cases hb : 64 ≤ xc + bit
    · simp [colB, hb]
    · have e0 : disp (xc + bit + yrow * 64) = disp2 (xc + bit + yrow * 64) :=
        hagree bit (le_refl bit) (by omega)
      have e1 := ih (bit + 1) disp disp2 (fun k hk h2 => hagree k (by omega) h2)
      simp only [colB, if_neg hb]
      rw [e0, e1]

/-- VF after the bit loop of one sprite row: 1 when some set sprite bit landed
on a lit cell of the incoming display, the incoming VF otherwise. -/
theorem drawBits_snd (data xc yrow : Nat) :
    ∀ (fuel bit : Nat) (disp : Nat → Bool) (vf : Nat),
      (drawBits data xc yrow bit fuel disp vf).2
        = cond (colB data xc yrow bit fuel disp) 1 vf := by
  intro fuel
  induction fuel with
  | zero =>
    intro bit disp vf
    simp [drawBits, colB]
  | succ fuel ih =>
    intro bit disp vf
    by_cases hb : 64 ≤ xc + bit
    · simp [drawBits, colB, hb]
    · by_cases hcb : Nat.land (128 >>> bit) data = 0
      · have e1 : drawBits data xc yrow bit (fuel + 1) disp vf
            = drawBits data xc yrow (bit + 1) fuel disp vf := by
          simp [drawBits, hb, hcb]
        have e2 : colB data xc yrow bit (fuel + 1) disp
            = colB data xc yrow (bit + 1) fuel disp := by
          simp [colB, hb, hcb]
        rw [e1, e2, ih]
      · by_cases hd : disp (xc + bit + yrow * 64) = true
        · have e1 : drawBits data xc yrow bit (fuel + 1) disp vf
              = drawBits data xc yrow (bit + 1) fuel
                  (upd disp (xc + bit + yrow * 64) false) 1 := by
            simp [drawBits, hb, hcb, hd]
          have e2 : colB data xc yrow bit (fuel + 1) disp = true := by
            simp [colB, hb, hcb, hd]
          rw [e1, ih, e2]
          cases colB data xc yrow (bit + 1) fuel (upd disp (xc + bit + yrow * 64) false) <;> rfl
        · have hd2 : disp (xc + bit + yrow * 64) = false := by
            revert hd
            cases disp (xc + bit + yrow * 64) <;> simp
          have e1 : drawBits data xc yrow bit (fuel + 1) disp vf
              = drawBits data xc yrow (bit + 1) fuel
                  (upd disp (xc + bit + yrow * 64) true) vf := by
            simp [drawBits, hb, hcb, hd2]
          have e2 : colB data xc yrow (bit + 1) fuel
                (upd disp (xc + bit + yrow * 64) true)
              = colB data xc yrow (bit + 1) fuel disp := by
            refine colB_congr data xc yrow fuel (bit + 1) _ _ (fun k hk h2 => ?_)
            have : xc + k + yrow * 64 ≠ xc + bit + yrow * 64 := by omega
            simp [upd, this]
          have e3 : colB data xc yrow bit (fuel + 1) disp
              = colB data xc yrow (bit + 1) fuel disp := by
            simp [colB, hb, hd2]
          rw [e1, ih, e2, e3]

/-- The row collision test holds exactly when some toggled position of the row
is lit in the tested display. -/
theorem colB_iff (data xc yrow : Nat) :
    ∀ (fuel bit : Nat) (disp : Nat → Bool),
      colB data xc yrow bit fuel disp = true
        ↔ ∃ p, hitB data xc yrow bit fuel p = true ∧ disp p = true := by
  intro fuel
  induction fuel with
  | zero =>
    intro bit disp
    simp [colB, hitB]
  | succ fuel ih =>
    intro bit disp
    by_cases hb : 64 ≤ xc + bit
    · simp [colB, hitB, hb]
    · simp only [colB, hitB, if_neg hb, Bool.or_eq_true, Bool.and_eq_true,
        decide_eq_true_eq]
      constructor
      · rintro (⟨hc, hd⟩ | hrec)
        · exact ⟨xc + bit + yrow * 64, Or.inl ⟨hc, rfl⟩, hd⟩
        · obtain ⟨p, hp1, hp2⟩ := (ih (bit + 1) disp).mp hrec
          exact ⟨p, Or.inr hp1, hp2⟩
      · rintro ⟨p, ⟨hc, hp⟩ | hrec, hd⟩
        · subst hp
          exact Or.inl ⟨hc, hd⟩
        · exact Or.inr ((ih (bit + 1) disp).mpr ⟨p, hrec, hd⟩)

/-- Rows toggle positions only at or below the current row band. -/
theorem hitR_floor (mem : Nat → Nat) (i xc yc : Nat) :
    ∀ (fuel row p : Nat), hitR mem i xc yc row fuel p = true → yc + row ≤ p / 64 := by
  intro fuel
  induction fuel with
  | zero =>
    intro row p h
    simp [hitR] at h
  | succ fuel ih =>
    intro row p h
    by_cases hy : 32 ≤ yc + row
    · simp [hitR, hy] at h
    · by_cases hm : i + row < 4096
      · simp only [hitR, if_neg hy, if_pos hm, Bool.or_eq_true] at h
        rcases h with h | h
        · have := hitB_band (mem (i + row)) xc (yc + row) 8 0 p h
          omega
        · have := ih (row + 1) p h
          omega
      · simp [hitR, hy, hm] at h

/-- The display after a successful row loop is the pointwise XOR of the sprite
toggle set with the incoming display. -/
theorem drawRows_ok_fst (mem : Nat → Nat) (i xc yc : Nat) :
    ∀ (fuel row : Nat) (disp : Nat → Bool) (vf : Nat) (d : Nat → Bool) (vfr : Nat),
      drawRows mem i xc yc row fuel disp vf = Except.ok (d, vfr) →
      ∀ p, d p = Bool.xor (hitR mem i xc yc row fuel p) (disp p) := by
  intro fuel
  induction fuel with
  | zero =>
    intro row disp vf d vfr h p
    simp only [drawRows] at h
    injection h with h
    injection h with h1 h2
    subst h1
    simp [hitR]
  | succ fuel ih =>
    intro row disp vf d vfr h p
    by_cases hy : 32 ≤ yc + row
    · rw [show drawRows mem i xc yc row (fuel + 1) disp vf = Except.ok (disp, vf) from by
        simp [drawRows, hy]] at h
      injection h with h
      injection h with h1 h2
      subst h1
      simp [hitR, hy]
    · by_cases hm : i + row < 4096
      · have e1 : drawRows mem i xc yc row (fuel + 1) disp vf
            = drawRows mem i xc yc (row + 1) fuel
                (drawBits (mem (i + row)) xc (yc + row) 0 8 disp vf).1
                (drawBits (mem (i + row)) xc (yc + row) 0 8 disp vf).2 := by
          simp [drawRows, hy, hm]
        rw [e1] at h
        have hrec := ih (row + 1) _ _ d vfr h p
        rw [hrec, drawBits_fst]
        have e2 : hitR mem i xc yc row (fuel + 1) p
            = (hitB (mem (i + row)) xc (yc + row) 0 8 p
                || hitR mem i xc yc (row + 1) fuel p) := by
          simp [hitR, hy, hm]
        rw [e2]
        by_cases hbp : hitB (mem (i + row)) xc (yc + row) 0 8 p = true
        · have hnr : hitR mem i xc yc (row + 1) fuel p = false := by
            cases hh : hitR mem i xc yc (row + 1) fuel p with
            | false => rfl
            | true =>
              have f1 := hitR_floor mem i xc yc fuel (row + 1) p hh
              have f2 := hitB_band (mem (i + row)) xc (yc + row) 8 0 p hbp
              omega
          rw [hbp, hnr]
          cases disp p <;> rfl
        · have hbp2 : hitB (mem (i + row)) xc (yc + row) 0 8 p = false := by
            revert hbp
            cases hitB (mem (i + row)) xc (yc + row) 0 8 p <;> simp
          rw [hbp2]
          cases hitR mem i xc yc (row + 1) fuel p <;> cases disp p <;> rfl
      · rw [show drawRows mem i xc yc row (fuel + 1) disp vf = Except.error (disp, vf) from by
          simp [drawRows, hy, hm]] at h
        exact Except.noConfusion h

/-- The sprite collision test only reads the display at or below the current
row band. -/
theorem colR_congr (mem : Nat → Nat) (i xc yc : Nat) :
    ∀ (fuel row : Nat) (disp disp2 : Nat → Bool),
      (∀ p, yc + row ≤ p / 64 → disp p = disp2 p) →
      colR mem i xc yc row fuel disp = colR mem i xc yc row fuel disp2 := by
  intro fuel
  induction fuel with
  | zero =>
    intro row disp disp2 hagree
    simp [colR]
  | succ fuel ih =>
    intro row disp disp2 hagree
    by_cases hy : 32 ≤ yc + row
    · simp [colR, hy]
    · by_cases hm : i + row < 4096
      · have e1 : colB (mem (i + row)) xc (yc + row) 0 8 disp
            = colB (mem (i + row)) xc (yc + row) 0 8 disp2 := by
          refine colB_congr (mem (i + row)) xc (yc + row) 8 0 _ _ (fun k hk h2 => ?_)
          refine hagree (xc + k + (yc + row) * 64) ?_
          omega
        have e2 := ih (row + 1) disp disp2 (fun p hp => hagree p (by omega))
        simp only [colR, if_neg hy, if_pos hm]
        rw [e1, e2]
      · simp [colR, hy, hm]

/-- VF after a successful row loop: 1 when some toggled position was lit in the
incoming display, the incoming VF otherwise. -/
theorem drawRows_ok_snd (mem : Nat → Nat) (i xc yc : Nat) :
    ∀ (fuel row : Nat) (disp : Nat → Bool) (vf : Nat) (d : Nat → Bool) (vfr : Nat),
      drawRows mem i xc yc row fuel disp vf = Except.ok (d, vfr) →
      vfr = cond (colR mem i xc yc row fuel disp) 1 vf := by
  intro fuel
  induction fuel with
  | zero =>
    intro row disp vf d vfr h
    simp only [drawRows] at h
    injection h with h
    injection h with h1 h2
    subst h2
    simp [colR]
  | succ fuel ih =>
    intro row disp vf d vfr h
    by_cases hy : 32 ≤ yc + row
    · rw [show drawRows mem i xc yc row (fuel + 1) disp vf = Except.ok (disp, vf) from by
        simp [drawRows, hy]] at h
      injection h with h
      injection h with h1 h2
      subst h2
      simp [colR, hy]
    · by_cases hm : i + row < 4096
      · have e1 : drawRows mem i xc yc row (fuel + 1) disp vf
            = drawRows mem i xc yc (row + 1) fuel
                (drawBits (mem (i + row)) xc (yc + row) 0 8 disp vf).1
                (drawBits (mem (i + row)) xc (yc + row) 0 8 disp vf).2 := by
          simp [drawRows, hy, hm]
        rw [e1] at h
        have hrec := ih (row + 1) _ _ d vfr h
        rw [drawBits_snd] at hrec
        have e2 : colR mem i xc yc (row + 1) fuel
              (drawBits (mem (i + row)) xc (yc + row) 0 8 disp vf).1
            = colR mem i xc yc (row + 1) fuel disp := by
          refine colR_congr mem i xc yc fuel (row + 1) _ _ (fun p hp => ?_)
          rw [drawBits_fst]
          have hnb : hitB (mem (i + row)) xc (yc + row) 0 8 p = false := by
            cases hh : hitB (mem (i + row)) xc (yc + row) 0 8 p with
            | false => rfl
            | true =>
              have := hitB_band (mem (i + row)) xc (yc + row) 8 0 p hh
              omega
          rw [hnb]
          cases disp p <;> rfl
        rw [e2] at hrec
        have e3 : colR mem i xc yc row (fuel + 1) disp
            = (colB (mem (i + row)) xc (yc + row) 0 8 disp
                || colR mem i xc yc (row + 1) fuel disp) := by
          simp [colR, hy, hm]
        rw [e3, hrec]
        cases colB (mem (i + row)) xc (yc + row) 0 8 disp <;>
          cases colR mem i xc yc (row + 1) fuel disp <;> rfl
      · rw [show drawRows mem i xc yc row (fuel + 1) disp vf = Except.error (disp, vf) from by
          simp [drawRows, hy, hm]] at h
        exact Except.noConfusion h

/-- The sprite collision test holds exactly when some toggled position of the
sprite is lit in the tested display. -/
theorem colR_iff (mem : Nat → Nat) (i xc yc : Nat) :
    ∀ (fuel row : Nat) (disp : Nat → Bool),
      colR mem i xc yc row fuel disp = true
        ↔ ∃ p, hitR mem i xc yc row fuel p = true ∧ disp p = true := by
  intro fuel
  induction fuel with
  | zero =>
    intro row disp
    simp [colR, hitR]
  | succ fuel ih =>
    intro row disp
    by_cases hy : 32 ≤ yc + row
    · simp [colR, hitR, hy]
    · by_cases hm : i + row < 4096
      · simp only [colR, hitR, if_neg hy, if_pos hm, Bool.or_eq_true]
        constructor
        · rintro (h | h)
          · obtain ⟨p, hp1, hp2⟩ := (colB_iff (mem (i + row)) xc (yc + row) 8 0 disp).mp h
            exact ⟨p, Or.inl hp1, hp2⟩
          · obtain ⟨p, hp1, hp2⟩ := (ih (row + 1) disp).mp h
            exact ⟨p, Or.inr hp1, hp2⟩
        · rintro ⟨p, h1 | h1, h2⟩
          · exact Or.inl ((colB_iff (mem (i + row)) xc (yc + row) 8 0 disp).mpr ⟨p, h1, h2⟩)
          · exact Or.inr ((ih (row + 1) disp).mpr ⟨p, h1, h2⟩)
      · simp [colR, hitR, hy, hm]

/-- When every sprite byte lies inside memory, the row loop succeeds. -/
theorem drawRows_total (mem : Nat → Nat) (i xc yc : Nat) :
    ∀ (fuel row : Nat) (disp : Nat → Bool) (vf : Nat),
      (∀ k, k < fuel → i + (row + k) < 4096) →
      ∃ d vfr, drawRows mem i xc yc row fuel disp vf = Except.ok (d, vfr) := by
  intro fuel
  induction fuel with
  | zero =>
    intro row disp vf hmem
    exact ⟨disp, vf, by simp [drawRows]⟩
  | succ fuel ih =>
    intro row disp vf hmem
    by_cases hy : 32 ≤ yc + row
    · exact ⟨disp, vf, by simp [drawRows, hy]⟩
    · have hm : i + row < 4096 := by
        have := hmem 0 (by omega)
        omega
      obtain ⟨d, vfr, hd⟩ := ih (row + 1)
        (drawBits (mem (i + row)) xc (yc + row) 0 8 disp vf).1
        (drawBits (mem (i + row)) xc (yc + row) 0 8 disp vf).2
        (fun k hk => by have := hmem (k + 1) (by omega); omega)
      refine ⟨d, vfr, ?_⟩
      rw [show drawRows mem i xc yc row (fuel + 1) disp vf
          = drawRows mem i xc yc (row + 1) fuel
              (drawBits (mem (i + row)) xc (yc + row) 0 8 disp vf).1
              (drawBits (mem (i + row)) xc (yc + row) 0 8 disp vf).2 from by
        simp [drawRows, hy, hm]]
      exact hd

/-- C6 amended: drawing the same sprite twice in succession, with register
operands x and y both distinct from 0xF (forced: the draw itself writes VF, so
an operand VF would change the origin of the second draw) and the sprite bytes
inside memory, restores the display exactly, and the second draw sets VF = 1
exactly when the first draw turned some pixel on. -/
theorem c6_draw_amended (s : Chip8) (rnd rnd2 x y n nn nnn nn2 nnn2 : Nat) (s1 s2 : Chip8)
    (hx : x < 16) (hy : y < 16) (hn : n < 16) (hxF : x ≠ 15) (hyF : y ≠ 15)
    (hmem : ∀ r, r < n → s.i + r < 4096)
    (h1 : execOp rnd 13 x y n nn nnn s = Except.ok s1)
    (h2 : execOp rnd2 13 x y n nn2 nnn2 s1 = Except.ok s2) :
    (∀ p, s2.display p = s.display p)
      ∧ (s2.v 15 = 1 ↔ ∃ p, s.display p = false ∧ s1.display p = true) := by
  have hred : ∀ (r nv nnv : Nat) (t : Chip8),
      execOp r 13 x y n nv nnv t = opDraw x y n t := by
    intro r nv nnv t
    unfold execOp
    norm_num
  rw [hred] at h1 h2
  unfold opDraw at h1 h2
  obtain ⟨d1, vf1, hd1⟩ := drawRows_total s.memory s.i (s.v x % 64) (s.v y % 32) n 0
    s.display 0 (fun k hk => by have := hmem k hk; omega)
  rw [hd1] at h1
  simp only [Except.ok.injEq] at h1
  subst h1
  have hvx : upd s.v 15 vf1 x = s.v x := by
    simp [upd, hxF]
  have hvy : upd s.v 15 vf1 y = s.v y := by
    simp [upd, hyF]
  simp only [hvx, hvy] at h2
  obtain ⟨d2, vf2, hd2⟩ := drawRows_total s.memory s.i (s.v x % 64) (s.v y % 32) n 0
    d1 0 (fun k hk => by have := hmem k hk; omega)
  rw [hd2] at h2
  simp only [Except.ok.injEq] at h2
  subst h2
  constructor
  · intro p
    have e1 := drawRows_ok_fst s.memory s.i (s.v x % 64) (s.v y % 32) n 0
      s.display 0 d1 vf1 hd1 p
    have e2 := drawRows_ok_fst s.memory s.i (s.v x % 64) (s.v y % 32) n 0
      d1 0 d2 vf2 hd2 p
    show d2 p = s.display p
    rw [e2, e1]
    cases hitR s.memory s.i (s.v x % 64) (s.v y % 32) 0 n p <;> cases s.display p <;> rfl
  · have ev := drawRows_ok_snd s.memory s.i (s.v x % 64) (s.v y % 32) n 0
      d1 0 d2 vf2 hd2
    have e15 : upd (upd s.v 15 vf1) 15 vf2 15 = vf2 := by
      simp [upd]
    show upd (upd s.v 15 vf1) 15 vf2 15 = 1 ↔ ∃ p, s.display p = false ∧ d1 p = true
    rw [e15, ev]
    constructor
    · intro hone
      have hC : colR s.memory s.i (s.v x % 64) (s.v y % 32) 0 n d1 = true := by
        revert hone
        cases colR s.memory s.i (s.v x % 64) (s.v y % 32) 0 n d1 <;> simp
      obtain ⟨p, hp1, hp2⟩ :=
        (colR_iff s.memory s.i (s.v x % 64) (s.v y % 32) n 0 d1).mp hC
      refine ⟨p, ?_, hp2⟩
      have ed := drawRows_ok_fst s.memory s.i (s.v x % 64) (s.v y % 32) n 0
        s.display 0 d1 vf1 hd1 p
      rw [ed, hp1] at hp2
      revert hp2
      cases s.display p <;> simp
    · rintro ⟨p, hp1, hp2⟩
      have ed := drawRows_ok_fst s.memory s.i (s.v x % 64) (s.v y % 32) n 0
        s.display 0 d1 vf1 hd1 p
      have hhit : hitR s.memory s.i (s.v x % 64) (s.v y % 32) 0 n p = true := by
        cases hh : hitR s.memory s.i (s.v x % 64) (s.v y % 32) 0 n p with
        | true => rfl
        | false =>
          rw [ed, hh, hp1] at hp2
          simp at hp2
      have hC : colR s.memory s.i (s.v x % 64) (s.v y % 32) 0 n d1 = true :=
        (colR_iff s.memory s.i (s.v x % 64) (s.v y % 32) n 0 d1).mpr ⟨p, hhit, hp2⟩
      rw [hC]
      rfl

/-- C6 counterexample: the claim as stated is false when the x operand is VF:
from c6cs (VF = 5, sprite byte 0x80 at i = 0), the first draw lights pixel 5
and resets VF, the second draw then lights pixel 0 instead of erasing pixel 5,
so the display is not restored. -/
theorem c6_counterexample : ¬ claimC6 := by
  intro h
  have h2 := h c6cs 0 0 15 0 1 0 0 0 0 c6cr1 c6cr2 (by decide) (by decide) (by decide)
    (fun r hr => by
      have h0 : r = 0 := by omega
      subst h0
      decide)
    rfl rfl
  exact absurd (h2.1 5) (by decide)

/-- Witness for c6_draw_amended: the 0xF0 sprite row drawn twice at the origin
from c6ws; the display returns to blank and the second draw reports VF = 1. -/
theorem c6_draw_amended_witness :
    (execOp 0 13 0 1 1 0 0 c6ws = Except.ok c6wr1
      ∧ execOp 0 13 0 1 1 0 0 c6wr1 = Except.ok c6wr2)
      ∧ ((∀ p, c6wr2.display p = c6ws.display p)
         ∧ (c6wr2.v 15 = 1 ↔ ∃ p, c6ws.display p = false ∧ c6wr1.display p = true)) :=
  ⟨⟨rfl, rfl⟩,
    c6_draw_amended c6ws 0 0 0 1 1 0 0 0 0 c6wr1 c6wr2 (by decide) (by decide) (by decide)
      (by decide) (by decide)
      (fun r hr => by
        have h0 : r = 0 := by omega
        subst h0
        decide)
      rfl rfl⟩
